import Mathlib

/-!
Verification of the ATF grammar-composition notebook (`override.ipynb`).

The notebook defines four toy lark grammars (inline `.lark` listings), a
`test_grammar` helper that opens a grammar with `Lark.open`, parses a fixed
list of sample lines, pretty-prints each resulting parse tree and catches
`UnexpectedCharacters` as a "Cannot parse" report.

This file embeds:
* the toy grammars as rule tables (name to list of alternatives, where an
  alternative is a string literal or a reference to another rule);
* the parsing of a sample line against such a grammar (fuel-bounded,
  producing a parse tree of rule nodes, literal terminals being filtered
  from the tree exactly as in the notebook's pretty-printed output);
* the grammar composition resolver, modelled from the spec because only the
  external lark library implements it;
* the `test_grammar` loop with its error discipline.
-/

namespace AtfGrammar

/-- An alternative of a grammar rule: either a literal string terminal or a
reference to another rule.  This covers every alternative occurring in the
notebook's toy grammars. -/
inductive Alt where
  | lit (s : String)
  | ref (r : String)
deriving DecidableEq, Repr

/-- A grammar is a table of named rules, each rule a list of alternatives. -/
abbrev Rules := List (String × List Alt)

/-- A parse tree: a rule node with child subtrees.  Literal terminals do not
appear as children, matching the notebook's pretty-printed trees where e.g.
`textline` is a leaf. -/
inductive Tree where
  | node (rule : String) (children : List Tree)

/-- Whether the grammar defines a rule of the given name. -/
def hasRule (g : Rules) (name : String) : Bool :=
  (g.lookup name).isSome

/-- Match one alternative against the input: a literal matches exactly its
own text (leaf node); a rule reference parses the input with the referenced
rule via `sub` and wraps the subtree. -/
def parseAlt (sub : String → String → Option Tree) (name input : String) :
    Alt → Option Tree
  | .lit s => if s = input then some (.node name []) else none
  | .ref r => (sub r input).map fun t => .node name [t]

/-- First successful result over a list of alternatives. -/
def firstResult (f : Alt → Option Tree) : List Alt → Option Tree
  | [] => none
  | a :: rest =>
    match f a with
    | some t => some t
    | none => firstResult f rest

/-- Fuel-bounded parsing of an input line with the named rule:
look the rule up and return the first alternative that matches. -/
def parseRule (g : Rules) : Nat → String → String → Option Tree
  | 0, _, _ => none
  | fuel + 1, name, input =>
    match g.lookup name with
    | none => none
    | some alts => firstResult (parseAlt (fun r i => parseRule g fuel r i) name input) alts

/-- A grammar accepts a line when its `start` rule parses it. -/
def accepts (g : Rules) (fuel : Nat) (line : String) : Bool :=
  (parseRule g fuel "start" line).isSome

theorem parseRule_zero (g : Rules) (name input : String) :
    parseRule g 0 name input = none := rfl

theorem parseRule_succ (g : Rules) (fuel : Nat) (name input : String) :
    parseRule g (fuel + 1) name input =
      match g.lookup name with
      | none => none
      | some alts =>
          firstResult (parseAlt (fun r i => parseRule g fuel r i) name input) alts := rfl

/-- A composition directive of an extension grammar: add alternatives to a
named rule, or replace a named rule's definition entirely. -/
inductive Directive where
  | extendRule (name : String) (alts : List Alt)
  | overrideRule (name : String) (alts : List Alt)
deriving DecidableEq, Repr

/-- The rule name a directive modifies. -/
def Directive.target : Directive → String
  | .extendRule name _ => name
  | .overrideRule name _ => name

/-- An extension grammar: freshly defined rules of its own plus the
directives it applies to the base (the notebook's `oracc_extension.lark`
defines the new rule `oracc_line` and issues two `%extend` directives). -/
structure Extension where
  newRules : Rules
  directives : List Directive
deriving DecidableEq, Repr

/-- Append alternatives to the named rule, leaving all other rules as is. -/
def addAlts (g : Rules) (name : String) (alts : List Alt) : Rules :=
  g.map fun p => if p.1 = name then (p.1, p.2 ++ alts) else p

/-- Replace the named rule's alternatives, leaving all other rules as is. -/
def replaceAlts (g : Rules) (name : String) (alts : List Alt) : Rules :=
  g.map fun p => if p.1 = name then (p.1, alts) else p

/-- Modelled from the spec: the lark library's handling of a single
`%extend` / `%override` directive is not part of this repository, so it is
taken from the spec's resolution algorithm — an `extend` directive adds the
extension's alternatives to the named rule's alternative set, an `override`
directive replaces the named rule's entire definition, and a directive
naming a rule not present fails with an unknown-base-rule error (`none`). -/
def applyDirective (g : Rules) : Directive → Option Rules
  | .extendRule name alts =>
      if hasRule g name then some (addAlts g name alts) else none
  | .overrideRule name alts =>
      if hasRule g name then some (replaceAlts g name alts) else none

/-- Modelled from the spec: apply one extension grammar to a base — its
directives in declared order against the base rule set, each checked against
the base's rule names; the extension's own new rules are then appended, and
imported-but-unmodified rules pass through unchanged. -/
def applyExtension (g : Rules) (e : Extension) : Option Rules :=
  (e.directives.foldlM applyDirective g).map fun g' => g' ++ e.newRules

/-- Modelled from the spec: resolution of a base grammar with a list of
extensions starts from the base rule set and applies each extension in
declared order; any unknown-rule failure aborts the resolution. -/
def resolve (base : Rules) (exts : List Extension) : Option Rules :=
  exts.foldlM applyExtension base

/-! ### The notebook's fixtures

The grammars are transcribed from the `.lark` listings in the notebook's
markdown cells; the sample lines from its first code cell.  The `?` prefix
on sub-rules (inline single-child nodes) never takes effect on these
grammars because literal terminals are filtered, leaving every sub-rule
node a leaf, so it is not modelled. -/

/-- `grammars/ebl_atf.lark`: the eBL base grammar. -/
def ebl_atf : Rules :=
  [("start", [.ref "textline", .ref "common_line"]),
   ("textline", [.lit "This is an eBL textline"]),
   ("common_line", [.lit "And this is a common linetype"])]

/-- `grammars/oracc_atf.lark`: the separate Oracc grammar (Option 1). -/
def oracc_atf : Rules :=
  [("start", [.ref "textline", .ref "legacy_line", .ref "common_line"]),
   ("textline", [.lit "This is an oracc-style textline"]),
   ("common_line", [.lit "And this is a common linetype"]),
   ("legacy_line", [.lit "Here is an oracc-specific linetype"])]

/-- `grammars/merged_atf.lark`: the monolithic merged grammar (Option 2). -/
def merged_atf : Rules :=
  [("start", [.ref "textline", .ref "common_line", .ref "legacy_line"]),
   ("textline", [.lit "This is an eBL textline", .lit "This is an oracc-style textline"]),
   ("common_line", [.lit "And this is a common linetype"]),
   ("legacy_line", [.lit "Here is an oracc-specific linetype"])]

/-- `grammars/oracc_extension.lark` (Option 3): imports the eBL base rules,
defines the new rule `oracc_line`, extends `textline` with the oracc-style
literal and extends `start` with the `oracc_line` alternative. -/
def oracc_extension : Extension :=
  { newRules := [("oracc_line", [.lit "Here is an oracc-specific linetype"])],
    directives :=
      [.extendRule "textline" [.lit "This is an oracc-style textline"],
       .extendRule "start" [.ref "oracc_line"]] }

/-- The resolved rule set of the eBL base grammar with the Oracc extension. -/
def oracc_resolved : Rules :=
  [("start", [.ref "textline", .ref "common_line", .ref "oracc_line"]),
   ("textline", [.lit "This is an eBL textline", .lit "This is an oracc-style textline"]),
   ("common_line", [.lit "And this is a common linetype"]),
   ("oracc_line", [.lit "Here is an oracc-specific linetype"])]

/-- The eBL sample lines of the notebook. -/
def ebl_lines : List String :=
  ["This is an eBL textline",
   "And this is a common linetype"]

/-- The Oracc sample lines of the notebook. -/
def oracc_lines : List String :=
  ["This is an oracc-style textline",
   "Here is an oracc-specific linetype"]

/-- All four sample lines, eBL first. -/
def lines : List String := ebl_lines ++ oracc_lines

/-! ### The `test_grammar` helper

`test_grammar(grammar_path, lines)` opens the grammar with `Lark.open`,
then for each line tries `parser.parse(line)` and prints the pretty tree,
catching only `UnexpectedCharacters` to print `Cannot parse {line!r}`.
Exceptions are modelled with `Except`; the printed output is collected in a
list, and an uncaught exception is returned alongside the output printed
before it was raised. -/

/-- Exceptions of the lark library as far as the notebook distinguishes
them: `UnexpectedCharacters` (the one `test_grammar` catches) and every
other exception (grammar-loading failures, other parse errors). -/
inductive LarkError where
  | unexpectedCharacters (line : String)
  | otherError (msg : String)
deriving DecidableEq, Repr

/-- One line of `test_grammar`'s printed output: a pretty-printed parse tree
or a `Cannot parse` report. -/
inductive Output where
  | tree (t : Tree)
  | cannotParse (line : String)

/-- `parser.parse(line)` for a grammar of this model: the parse tree on
success, the `UnexpectedCharacters` exception when the line matches no rule. -/
def parseExc (g : Rules) (fuel : Nat) (line : String) : Except LarkError Tree :=
  match parseRule g fuel "start" line with
  | some t => .ok t
  | none => .error (.unexpectedCharacters line)

/-- The loop body of `test_grammar`: parse each line in order; print the
tree on success; on `UnexpectedCharacters` print the `Cannot parse` report
and continue; any other exception aborts the loop and propagates. -/
def runLines (p : String → Except LarkError Tree) :
    List String → List Output × Option LarkError
  | [] => ([], none)
  | line :: rest =>
    match p line with
    | .ok t =>
        let r := runLines p rest
        (.tree t :: r.1, r.2)
    | .error (.unexpectedCharacters _) =>
        let r := runLines p rest
        (.cannotParse line :: r.1, r.2)
    | .error e => ([], some e)

/-- `test_grammar`: `Lark.open` runs outside the `try`, so a failure there
propagates immediately; otherwise the obtained parser is run over the lines. -/
def test_grammar (opened : Except LarkError (String → Except LarkError Tree))
    (ls : List String) : List Output × Option LarkError :=
  match opened with
  | .error e => ([], some e)
  | .ok p => runLines p ls

/-- The printed result `test_grammar` produces for one line. -/
def lineResult (g : Rules) (fuel : Nat) (line : String) : Output :=
  match parseRule g fuel "start" line with
  | some t => .tree t
  | none => .cannotParse line

/-- The grammar paths passed to `Lark.open`, one per `test_grammar` call of
the notebook's code cells in execution order: the base demo, the two
Option 1 calls, the Option 2 call and the Option 3 call. -/
def notebook_open_calls : List String :=
  ["grammars/ebl_atf.lark",
   "grammars/ebl_atf.lark",
   "grammars/oracc_atf.lark",
   "grammars/merged_atf.lark",
   "grammars/oracc_extension.lark"]

/-! ### Helper lemmas -/

theorem lookup_mapVal (f : String → List Alt → List Alt) (g : Rules) (n : String) :
    (g.map fun p => (p.1, f p.1 p.2)).lookup n = (g.lookup n).map (f n) := by
  induction g with
  | nil => rfl
  | cons p g ih =>
    simp only [List.map_cons, List.lookup]
    cases hbeq : n == p.1 with
    | false => simpa using ih
    | true =>
      have hn : n = p.1 := by simpa using hbeq
      simp [hn]

theorem addAlts_eq_mapVal (g : Rules) (name : String) (alts : List Alt) :
    addAlts g name alts = g.map fun p => (p.1, if p.1 = name then p.2 ++ alts else p.2) := by
  unfold addAlts
  apply List.map_congr_left
  intro p _
  by_cases h : p.1 = name <;> simp [h]

theorem replaceAlts_eq_mapVal (g : Rules) (name : String) (alts : List Alt) :
    replaceAlts g name alts = g.map fun p => (p.1, if p.1 = name then alts else p.2) := by
  unfold replaceAlts
  apply List.map_congr_left
  intro p _
  by_cases h : p.1 = name <;> simp [h]

theorem lookup_addAlts (g : Rules) (name n : String) (alts : List Alt) :
    (addAlts g name alts).lookup n =
      (g.lookup n).map fun v => if n = name then v ++ alts else v := by
  rw [addAlts_eq_mapVal]
  exact lookup_mapVal (fun k v => if k = name then v ++ alts else v) g n

theorem lookup_replaceAlts (g : Rules) (name n : String) (alts : List Alt) :
    (replaceAlts g name alts).lookup n =
      (g.lookup n).map fun v => if n = name then alts else v := by
  rw [replaceAlts_eq_mapVal]
  exact lookup_mapVal (fun k v => if k = name then alts else v) g n

theorem hasRule_addAlts (g : Rules) (name n : String) (alts : List Alt) :
    hasRule (addAlts g name alts) n = hasRule g n := by
  simp [hasRule, lookup_addAlts]

theorem hasRule_replaceAlts (g : Rules) (name n : String) (alts : List Alt) :
    hasRule (replaceAlts g name alts) n = hasRule g n := by
  simp [hasRule, lookup_replaceAlts]

theorem hasRule_applyDirective {g g' : Rules} {d : Directive}
    (h : applyDirective g d = some g') (n : String) : hasRule g' n = hasRule g n := by
  cases d with
  | extendRule name alts =>
    by_cases hr : hasRule g name = true
    · simp [applyDirective, hr] at h
      rw [← h, hasRule_addAlts]
    · simp [applyDirective, hr] at h
  | overrideRule name alts =>
    by_cases hr : hasRule g name = true
    · simp [applyDirective, hr] at h
      rw [← h, hasRule_replaceAlts]
    · simp [applyDirective, hr] at h

theorem foldlM_directives_none {d : Directive} :
    ∀ (ds : List Directive) (g : Rules), d ∈ ds → hasRule g d.target = false →
      ds.foldlM applyDirective g = none := by
  intro ds
  induction ds with
  | nil => intro g h _; cases h
  | cons d' rest ih =>
    intro g hmem habs
    rcases List.mem_cons.mp hmem with heq | hmem'
    · subst heq
      have hnone : applyDirective g d = none := by
        cases d <;> simp_all [applyDirective, Directive.target]
      simp [List.foldlM_cons, hnone]
    · cases hap : applyDirective g d' with
      | none => simp [List.foldlM_cons, hap]
      | some g' =>
        simp only [List.foldlM_cons, hap, Option.bind_eq_bind, Option.some_bind]
        exact ih g' hmem' ((hasRule_applyDirective hap d.target).trans habs)

/-- Pointwise extension of rule tables: every rule of `g` is present in `g'`
with the same alternatives possibly followed by extra ones. -/
def Extends (g g' : Rules) : Prop :=
  ∀ n alts, g.lookup n = some alts → ∃ extra, g'.lookup n = some (alts ++ extra)

theorem firstResult_isSome_append {f : Alt → Option Tree} {l : List Alt}
    (extra : List Alt) (h : (firstResult f l).isSome = true) :
    (firstResult f (l ++ extra)).isSome = true := by
  induction l with
  | nil => simp [firstResult] at h
  | cons a rest ih =>
    simp only [List.cons_append, firstResult] at h ⊢
    cases hfa : f a with
    | some t => simp
    | none => rw [hfa] at h; exact ih h

theorem firstResult_mono {f f' : Alt → Option Tree} {l : List Alt}
    (helt : ∀ a ∈ l, (f a).isSome = true → (f' a).isSome = true)
    (h : (firstResult f l).isSome = true) : (firstResult f' l).isSome = true := by
  induction l with
  | nil => simp [firstResult] at h
  | cons a rest ih =>
    simp only [firstResult] at h ⊢
    cases hfa : f a with
    | some t =>
      have : (f' a).isSome = true := helt a (by simp) (by simp [hfa])
      cases hfa' : f' a with
      | some t' => simp
      | none => rw [hfa'] at this; simp at this
    | none =>
      rw [hfa] at h
      cases hfa' : f' a with
      | some t' => simp
      | none => exact ih (fun a ha => helt a (by simp [ha])) h

theorem parseRule_mono {g g' : Rules} (h : Extends g g') :
    ∀ (fuel : Nat) (name input : String), (parseRule g fuel name input).isSome = true →
      (parseRule g' fuel name input).isSome = true := by
  intro fuel
  induction fuel with
  | zero => intro name input hp; simp [parseRule] at hp
  | succ n ih =>
    intro name input hp
    rw [parseRule_succ] at hp ⊢
    cases hl : g.lookup name with
    | none => rw [hl] at hp; simp at hp
    | some alts =>
      rw [hl] at hp
      obtain ⟨extra, hl'⟩ := h name alts hl
      rw [hl']
      apply firstResult_isSome_append
      refine firstResult_mono ?_ hp
      intro a _ ha
      cases a with
      | lit s => simpa [parseAlt] using ha
      | ref r =>
        simp only [parseAlt, Option.isSome_map'] at ha ⊢
        exact ih r input ha

theorem extends_addAlts (g : Rules) (name : String) (alts : List Alt) :
    Extends g (addAlts g name alts) := by
  intro n v hv
  rw [lookup_addAlts, hv]
  by_cases h : n = name
  · exact ⟨alts, by simp [h]⟩
  · exact ⟨[], by simp [h]⟩

/-- `runLines` over the fallible parser of a model grammar: one printed
result per input line, in order, and no exception ever escapes. -/
theorem runLines_parseExc (g : Rules) (fuel : Nat) :
    ∀ ls : List String, runLines (parseExc g fuel) ls = (ls.map (lineResult g fuel), none) := by
  intro ls
  induction ls with
  | nil => rfl
  | cons line rest ih =>
    cases hp : parseRule g fuel "start" line with
    | some t => simp [runLines, parseExc, lineResult, hp, ih]
    | none => simp [runLines, parseExc, lineResult, hp, ih]

/-- An extension that only extends the rule `R` with the single
alternative `A`. -/
def extendOnly (R : String) (A : Alt) : Extension :=
  { newRules := [], directives := [.extendRule R [A]] }

/-- An extension that only overrides the rule `R` with the alternatives
`alts`. -/
def overrideOnly (R : String) (alts : List Alt) : Extension :=
  { newRules := [], directives := [.overrideRule R alts] }

/-! ### The claims -/

/-- C6: Resolution identity — resolving any base grammar with zero
extensions yields exactly the base, every rule and alternative unchanged. -/
theorem resolve_no_extensions_id (B : Rules) : resolve B [] = some B := rfl

/-- C2: Extension monotonicity — for every base grammar `B` and extension
that extends a rule `R` of `B` with an alternative `A`, the resolved
grammar's rule `R` has alternative set equal to the union of `B`'s
alternatives for `R` and `{A}`, and every line accepted by `B` alone is
still accepted by the resolved grammar (at every fuel bound). -/
theorem extend_union_monotone (B : Rules) (R : String) (A : Alt) (altsB : List Alt)
    (hR : B.lookup R = some altsB) :
    ∃ g, resolve B [extendOnly R A] = some g ∧
      g.lookup R = some (altsB ++ [A]) ∧
      (∀ x : Alt, x ∈ altsB ++ [A] ↔ x ∈ altsB ∨ x = A) ∧
      ∀ (fuel : Nat) (line : String),
        accepts B fuel line = true → accepts g fuel line = true := by
  have hhas : hasRule B R = true := by simp [hasRule, hR]
  refine ⟨addAlts B R [A], ?_, ?_, ?_, ?_⟩
  · simp [resolve, extendOnly, applyExtension, applyDirective, hhas, List.foldlM]
  · rw [lookup_addAlts, hR]
    simp
  · intro x
    simp [or_comm]
  · intro fuel line hacc
    exact parseRule_mono (extends_addAlts B R [A]) fuel "start" line hacc

/-- C2 witness: the concrete eBL base grammar extended on `textline` with
the oracc-style literal. -/
theorem extend_union_monotone_witness :
    ebl_atf.lookup "textline" = some [Alt.lit "This is an eBL textline"] ∧
    ∃ g, resolve ebl_atf
        [extendOnly "textline" (Alt.lit "This is an oracc-style textline")] = some g ∧
      g.lookup "textline" =
        some ([Alt.lit "This is an eBL textline"] ++
          [Alt.lit "This is an oracc-style textline"]) ∧
      (∀ x : Alt, x ∈ [Alt.lit "This is an eBL textline"] ++
          [Alt.lit "This is an oracc-style textline"] ↔
        x ∈ [Alt.lit "This is an eBL textline"] ∨
          x = Alt.lit "This is an oracc-style textline") ∧
      ∀ (fuel : Nat) (line : String),
        accepts ebl_atf fuel line = true → accepts g fuel line = true :=
  ⟨rfl, extend_union_monotone ebl_atf "textline"
    (Alt.lit "This is an oracc-style textline") [Alt.lit "This is an eBL textline"] rfl⟩

/-- C3: Override semantics — for every base grammar `B` and extension that
overrides a rule `R` of `B` with alternatives `newAlts`, the resolved
grammar's rule `R` is matched exactly by matching `newAlts` (so it accepts
precisely the inputs matched by the extension's definition), and every
alternative that existed only in `B` is gone from `R` unless re-declared
in `newAlts`. -/
theorem override_replaces (B : Rules) (R : String) (newAlts altsB : List Alt)
    (hR : B.lookup R = some altsB) :
    ∃ g, resolve B [overrideOnly R newAlts] = some g ∧
      g.lookup R = some newAlts ∧
      (∀ (fuel : Nat) (input : String),
        parseRule g (fuel + 1) R input =
          firstResult (parseAlt (fun r i => parseRule g fuel r i) R input) newAlts) ∧
      ∀ a : Alt, a ∈ altsB → a ∉ newAlts → a ∉ (g.lookup R).getD [] := by
  have hhas : hasRule B R = true := by simp [hasRule, hR]
  have hlook : (replaceAlts B R newAlts).lookup R = some newAlts := by
    rw [lookup_replaceAlts, hR]
    simp
  refine ⟨replaceAlts B R newAlts, ?_, hlook, ?_, ?_⟩
  · simp [resolve, overrideOnly, applyExtension, applyDirective, hhas, List.foldlM]
  · intro fuel input
    rw [parseRule_succ, hlook]
  · intro a _ hnotin
    rw [hlook]
    simpa using hnotin

/-- C3 witness: overriding `textline` of the concrete eBL base grammar with
a fresh literal removes the base-only eBL alternative. -/
theorem override_replaces_witness :
    ebl_atf.lookup "textline" = some [Alt.lit "This is an eBL textline"] ∧
    ∃ g, resolve ebl_atf
        [overrideOnly "textline" [Alt.lit "This is an oracc-style textline"]] = some g ∧
      g.lookup "textline" = some [Alt.lit "This is an oracc-style textline"] ∧
      (∀ (fuel : Nat) (input : String),
        parseRule g (fuel + 1) "textline" input =
          firstResult (parseAlt (fun r i => parseRule g fuel r i) "textline" input)
            [Alt.lit "This is an oracc-style textline"]) ∧
      ∀ a : Alt, a ∈ [Alt.lit "This is an eBL textline"] →
        a ∉ [Alt.lit "This is an oracc-style textline"] →
        a ∉ (g.lookup "textline").getD [] :=
  ⟨rfl, override_replaces ebl_atf "textline"
    [Alt.lit "This is an oracc-style textline"] [Alt.lit "This is an eBL textline"] rfl⟩

/-- C5: Unknown-rule rejection — if an extension contains a directive
(override or extend) whose target rule name is absent from the base
grammar, resolution fails (returns `none`) rather than succeeding. -/
theorem unknown_rule_fails (B : Rules) (E : Extension) (d : Directive)
    (hd : d ∈ E.directives) (habs : hasRule B d.target = false) :
    resolve B [E] = none := by
  have h : E.directives.foldlM applyDirective B = none :=
    foldlM_directives_none E.directives B hd habs
  simp [resolve, applyExtension, h, List.foldlM]

/-- C5 witness: the eBL base grammar has no rule `legacy_line`, so an
extension overriding it fails to resolve. -/
theorem unknown_rule_fails_witness :
    (Directive.overrideRule "legacy_line" [Alt.lit "Here is an oracc-specific linetype"]
        ∈ (overrideOnly "legacy_line" [Alt.lit "Here is an oracc-specific linetype"]).directives) ∧
    hasRule ebl_atf
      (Directive.overrideRule "legacy_line"
        [Alt.lit "Here is an oracc-specific linetype"]).target = false ∧
    resolve ebl_atf
      [overrideOnly "legacy_line" [Alt.lit "Here is an oracc-specific linetype"]] = none :=
  ⟨by simp [overrideOnly], rfl,
    unknown_rule_fails ebl_atf
      (overrideOnly "legacy_line" [Alt.lit "Here is an oracc-specific linetype"])
      (Directive.overrideRule "legacy_line" [Alt.lit "Here is an oracc-specific linetype"])
      (by simp [overrideOnly]) rfl⟩

/-- C1: End-to-end extension scenario — the eBL base grammar accepts the
two eBL sample lines; resolving it with the Oracc extension yields the
resolved rule set, under which all four sample lines parse successfully
and the two original eBL lines produce the same parse trees as under the
unextended base grammar. -/
theorem extension_end_to_end :
    accepts ebl_atf 2 "This is an eBL textline" = true ∧
    accepts ebl_atf 2 "And this is a common linetype" = true ∧
    resolve ebl_atf [oracc_extension] = some oracc_resolved ∧
    lines.all (accepts oracc_resolved 2) = true ∧
    parseRule oracc_resolved 2 "start" "This is an eBL textline" =
      parseRule ebl_atf 2 "start" "This is an eBL textline" ∧
    parseRule oracc_resolved 2 "start" "And this is a common linetype" =
      parseRule ebl_atf 2 "start" "And this is a common linetype" :=
  ⟨rfl, rfl, rfl, rfl, rfl, rfl⟩

/-- C4: Error handling at the parse interface — a line the grammar does not
match makes parsing fail with the unexpected-characters condition,
`test_grammar` reports it as cannot-parse and keeps going, and the failure
never propagates out of `test_grammar`. -/
theorem unparsable_line_reported (g : Rules) (fuel : Nat) (line : String)
    (rest : List String) (h : parseRule g fuel "start" line = none) :
    parseExc g fuel line = .error (.unexpectedCharacters line) ∧
    test_grammar (.ok (parseExc g fuel)) (line :: rest) =
      (.cannotParse line :: (rest.map (lineResult g fuel)), none) ∧
    ∀ ls : List String, (test_grammar (.ok (parseExc g fuel)) ls).2 = none := by
  refine ⟨by simp [parseExc, h], ?_, ?_⟩
  · simp [test_grammar, runLines, parseExc, h, runLines_parseExc]
  · intro ls
    simp [test_grammar, runLines_parseExc]

/-- C4 witness: the eBL base grammar cannot parse the oracc-style line;
`test_grammar` reports it and still processes the following line. -/
theorem unparsable_line_reported_witness :
    parseRule ebl_atf 2 "start" "This is an oracc-style textline" = none ∧
    parseExc ebl_atf 2 "This is an oracc-style textline" =
      .error (.unexpectedCharacters "This is an oracc-style textline") ∧
    test_grammar (.ok (parseExc ebl_atf 2))
        ("This is an oracc-style textline" :: ["Here is an oracc-specific linetype"]) =
      (.cannotParse "This is an oracc-style textline" ::
        (["Here is an oracc-specific linetype"].map (lineResult ebl_atf 2)), none) ∧
    ∀ ls : List String, (test_grammar (.ok (parseExc ebl_atf 2)) ls).2 = none :=
  ⟨rfl, unparsable_line_reported ebl_atf 2 "This is an oracc-style textline"
    ["Here is an oracc-specific linetype"] rfl⟩

/-- C8: `test_grammar` catches only the unexpected-characters failure — an
error while opening the grammar propagates untouched, and an error raised
while parsing a line that is not `unexpectedCharacters` aborts the loop and
propagates instead of producing a cannot-parse report. -/
theorem only_unexpected_characters_caught
    (p : String → Except LarkError Tree) (line : String) (rest : List String)
    (e : LarkError) (he : ∀ s, e ≠ .unexpectedCharacters s) (hp : p line = .error e) :
    test_grammar (.ok p) (line :: rest) = ([], some e) ∧
    ∀ (e' : LarkError) (ls : List String), test_grammar (.error e') ls = ([], some e') := by
  constructor
  · cases e with
    | unexpectedCharacters s => exact absurd rfl (he s)
    | otherError m => simp [test_grammar, runLines, hp]
  · intro e' ls
    rfl

/-- C8 witness: a parser raising a non-unexpected-characters error on the
first line makes `test_grammar` propagate it with no output. -/
theorem only_unexpected_characters_caught_witness :
    (∀ s, LarkError.otherError "grammar file not found" ≠ .unexpectedCharacters s) ∧
    ((fun _ : String => (.error (.otherError "grammar file not found") :
        Except LarkError Tree)) "some line" =
      .error (.otherError "grammar file not found")) ∧
    test_grammar
        (.ok (fun _ : String => (.error (.otherError "grammar file not found") :
          Except LarkError Tree)))
        ("some line" :: []) = ([], some (.otherError "grammar file not found")) ∧
    ∀ (e' : LarkError) (ls : List String), test_grammar (.error e') ls = ([], some e') := by
  have h := only_unexpected_characters_caught
    (fun _ : String => (.error (.otherError "grammar file not found") : Except LarkError Tree))
    "some line" [] (.otherError "grammar file not found")
    (fun s hcontra => LarkError.noConfusion hcontra) rfl
  exact ⟨fun s hcontra => LarkError.noConfusion hcontra, rfl, h.1, h.2⟩

/-- C9: one printed result per line, in list order — for every grammar of
the model and every list of input lines, `test_grammar` produces exactly
the per-line results in order (a parse tree or a cannot-parse report), so a
line that fails to parse never prevents later lines from being processed. -/
theorem one_result_per_line (g : Rules) (fuel : Nat) (ls : List String) :
    test_grammar (.ok (parseExc g fuel)) ls = (ls.map (lineResult g fuel), none) := by
  simp [test_grammar, runLines_parseExc]

/-- C10: the merged grammar and the resolved base-plus-extension grammar
accept all four sample lines and agree on the parse trees of the first
three, but differ on the fourth: the merged grammar parses it as a
`legacy_line` child of `start` while the extension grammar parses it as an
`oracc_line` child. -/
theorem merged_vs_extension_trees :
    resolve ebl_atf [oracc_extension] = some oracc_resolved ∧
    lines.all (accepts merged_atf 2) = true ∧
    lines.all (accepts oracc_resolved 2) = true ∧
    parseRule merged_atf 2 "start" "This is an eBL textline" =
      parseRule oracc_resolved 2 "start" "This is an eBL textline" ∧
    parseRule merged_atf 2 "start" "And this is a common linetype" =
      parseRule oracc_resolved 2 "start" "And this is a common linetype" ∧
    parseRule merged_atf 2 "start" "This is an oracc-style textline" =
      parseRule oracc_resolved 2 "start" "This is an oracc-style textline" ∧
    parseRule merged_atf 2 "start" "Here is an oracc-specific linetype" =
      some (.node "start" [.node "legacy_line" []]) ∧
    parseRule oracc_resolved 2 "start" "Here is an oracc-specific linetype" =
      some (.node "start" [.node "oracc_line" []]) ∧
    Tree.node "start" [Tree.node "legacy_line" []] ≠
      Tree.node "start" [Tree.node "oracc_line" []] :=
  ⟨rfl, rfl, rfl, rfl, rfl, rfl, rfl, rfl, by simp⟩

/-- C7 counterexample: the notebook does not construct exactly three
parsers over three distinct grammar files — `Lark.open` runs once per
`test_grammar` call, and there are five such calls. -/
theorem three_open_calls_refuted :
    ¬ (notebook_open_calls.length = 3 ∧ notebook_open_calls.dedup.length = 3) := by
  decide

/-- C7 amended: the notebook's executable code constructs a parser via
`Lark.open` five times (once per `test_grammar` call), over four distinct
grammar files. -/
theorem five_open_calls_four_files :
    notebook_open_calls.length = 5 ∧ notebook_open_calls.dedup.length = 4 := by
  decide

end AtfGrammar


